import Mathlib

/-!
Shallow embedding of the statistics pipeline of the rc-metadata-dashboard
repository:

* `PublicationStatsAPI.extract_statistics` (src/publication_stats.py,
  lines 44-98): the Response Normalizer turning one raw usage report into
  a fixed statistics record.
* the month-label parsing, pivot alignment and proportional download
  redistribution inside `load_data` (src/app.py, lines 174-220).

Modelling conventions:

* A JSON point `{'id': ..., 'label': ..., 'values': {'views': ...}}` is a
  `Point`; the Python accesses `point.get('id','')`,
  `point.get('label','')` and `point.get('values',{}).get('views',0)`
  apply string/zero defaults at every access, so missing keys are
  represented by those default field values directly.
* JSON numbers carry a sign, so `views` is `Int` (the Python code never
  validates non-negativity).
* Python floats are modelled as exact rationals `ℚ`; `round(x, 2)` is
  `round2`, numpy's `.astype(int)` (truncation toward zero) is `truncInt`.
* An absent response (`data` falsy) or one without an `'_embedded'` key is
  the `none` case of the `Option (List Report)` argument.
-/

/-- One point of a usage-report section: `id`, `label`, and
`values.views` as accessed by the Python code with its defaults. -/
structure Point where
  id : String
  label : String
  views : Int
  deriving Repr, DecidableEq

/-- One tagged report section: `report.get('report-type','')` and
`report.get('points',[])`. -/
structure Report where
  reportType : String
  points : List Point
  deriving Repr, DecidableEq

/-- One country entry of `stats['top_countries']`. -/
structure Country where
  country_code : String
  country : String
  visits : Int
  percentage : ℚ
  deriving Repr, DecidableEq

/-- The `stats` dictionary built by `extract_statistics`:
`monthly_visits` entries are `(month_label, visits)` pairs. -/
structure Stats where
  uuid : String
  total_downloads : Int
  total_visits : Int
  monthly_visits : List (String × Int)
  top_countries : List Country
  deriving Repr, DecidableEq

/-- Python `round(x, 2)`: rounding to two decimals, on exact rationals. -/
def round2 (q : ℚ) : ℚ := (round (q * 100) : ℤ) / 100

/-- The initial `stats` dictionary of `extract_statistics`
(all-zero / empty defaults). -/
def initStats (uuid : String) : Stats :=
  { uuid := uuid, total_downloads := 0, total_visits := 0,
    monthly_visits := [], top_countries := [] }

/-- The country list built for a `TopCountries` section: each point
maps to `(id, label, views)` plus a percentage of the section-local
views total, rounded to two decimals, 0 when the total is not positive. -/
def countryEntries (ps : List Point) : List Country :=
  let total : Int := (ps.map (fun p => p.views)).sum
  ps.map (fun p =>
    { country_code := p.id, country := p.label, visits := p.views,
      percentage := round2 (if total > 0 then (p.views : ℚ) / (total : ℚ) * 100 else 0) })

/-- One iteration of the `for report in reports` loop of
`extract_statistics`: dispatch on the report-type tag, mutate `stats`. -/
def processReport (s : Stats) (r : Report) : Stats :=
  if r.reportType = "TotalDownloads" then
    { s with total_downloads :=
        r.points.foldl (fun acc p => acc + p.views) s.total_downloads }
  else if r.reportType = "TotalVisits" then
    { s with total_visits :=
        r.points.foldl (fun _ p => p.views) s.total_visits }
  else if r.reportType = "TotalVisitsPerMonth" then
    { s with monthly_visits := r.points.map (fun p => (p.label, p.views)) }
  else if r.reportType = "TopCountries" then
    { s with top_countries := countryEntries r.points }
  else s

/-- Model of `PublicationStatsAPI.extract_statistics` (src/publication_stats.py):
`none` models absent data or data without the `'_embedded'` key;
otherwise `reports` is `data['_embedded'].get('usagereports', [])`. -/
def extract_statistics (uuid : String) (data : Option (List Report)) : Stats :=
  match data with
  | none => initStats uuid
  | some reports => reports.foldl processReport (initStats uuid)

/-- numpy `.astype(int)`: truncation toward zero, on exact rationals. -/
def truncInt (q : ℚ) : Int := if 0 ≤ q then ⌊q⌋ else ⌈q⌉

/-- The `month_map` dictionary of `load_data` (src/app.py); `none`
models a `KeyError` on lookup. -/
def month_map (m : String) : Option String :=
  if m = "January" then some "01"
  else if m = "February" then some "02"
  else if m = "March" then some "03"
  else if m = "April" then some "04"
  else if m = "May" then some "05"
  else if m = "June" then some "06"
  else if m = "July" then some "07"
  else if m = "August" then some "08"
  else if m = "September" then some "09"
  else if m = "October" then some "10"
  else if m = "November" then some "11"
  else if m = "December" then some "12"
  else none

/-- Helper for Python `str.split()`: accumulate the current word
(reversed) while scanning, splitting on runs of spaces. -/
def splitWordsAux : List Char → List Char → List String
  | [], acc => if acc.isEmpty then [] else [String.mk acc.reverse]
  | c :: rest, acc =>
    if c = ' ' then
      if acc.isEmpty then splitWordsAux rest []
      else String.mk acc.reverse :: splitWordsAux rest []
    else splitWordsAux rest (c :: acc)

/-- Python `x.split()` (whitespace split, empty chunks discarded),
restricted to the space character, which is the only whitespace in the
month labels at hand. -/
def pySplit (s : String) : List String := splitWordsAux s.toList []

/-- The lambda of `load_data` converting a month label to a `YYYY-MM`
key: `f-string of x.split()[1], month_map[x.split()[0]]`; `none` models
the `IndexError`/`KeyError` the lambda would raise. -/
def parseMonthYear (x : String) : Option String :=
  match pySplit x with
  | w0 :: w1 :: _ => (month_map w0).map (fun mm => w1 ++ "-" ++ mm)
  | _ => none

/-- One cell of the `pivot_table(index='title', columns='month_year',
values='visits', fill_value=0)` call for a fixed title: the mean
(default `aggfunc`) of the `visits` of this title's rows carrying the
month key `m`, or the fill value 0 when there is no such row. -/
def alignedValue (rows : List (String × Int)) (m : String) : ℚ :=
  let vs := (rows.filter (fun r => r.1 = m)).map (fun r => (r.2 : ℚ))
  if vs.length = 0 then 0 else vs.sum / (vs.length : ℚ)

/-- One title's row of the views pivot along a month axis: the pivot
columns are the month keys, absent months filled with 0. -/
def alignedSeries (axis : List String) (rows : List (String × Int)) : List ℚ :=
  axis.map (alignedValue rows)

/-- Lookup in `downloads_map = dict(zip(publication_stats['title'],
publication_stats['total_downloads']))` followed by
`.get(item_name, 0)`: the last pair with a matching title wins
(later `dict` insertions overwrite earlier ones), default 0. -/
def downloadsMapGet (pubStats : List (String × Int)) (title : String) : Int :=
  (((pubStats.filter (fun e => e.1 = title)).getLast?).map Prod.snd).getD 0

/-- The body of the redistribution loop of `load_data` for one pivot
row: with `total_views = item_views.sum`, each stored value is
`astype(int)` of `(v / total_views) * total_downloads` when
`total_views > 0`, and 0 otherwise. -/
def redistribute (total_downloads : Int) (item_views : List ℚ) : List Int :=
  let total_views : ℚ := item_views.sum
  if total_views > 0 then
    item_views.map (fun v => truncInt (v / total_views * (total_downloads : ℚ)))
  else
    item_views.map (fun _ => 0)

/-- The downloads row stored for one pivot row: the title is joined to
`publication_statistics` through `downloads_map` and the row's views
are redistributed. -/
def rowDownloads (pubStats : List (String × Int)) (title : String)
    (item_views : List ℚ) : List Int :=
  redistribute (downloadsMapGet pubStats title) item_views

/-! ### Helper lemmas on the normalizer fold -/

theorem foldl_add_views (ps : List Point) (a : Int) :
    ps.foldl (fun acc p => acc + p.views) a = a + (ps.map (fun p => p.views)).sum := by
  induction ps generalizing a with
  | nil => simp
  | cons p t ih => simp [List.foldl_cons, ih, add_assoc]

theorem foldl_last_views (ps : List Point) (a : Int) :
    ps.foldl (fun _ p => p.views) a = ((ps.getLast?).map (fun p => p.views)).getD a := by
  induction ps generalizing a with
  | nil => simp
  | cons p t ih =>
    cases t with
    | nil => simp
    | cons q u => simpa [List.getLast?] using ih q.views

theorem processReport_uuid (s : Stats) (r : Report) :
    (processReport s r).uuid = s.uuid := by
  simp only [processReport]; split_ifs <;> rfl

theorem processReport_total_downloads (s : Stats) (r : Report)
    (h : r.reportType ≠ "TotalDownloads") :
    (processReport s r).total_downloads = s.total_downloads := by
  simp only [processReport]; split_ifs <;> simp_all

theorem processReport_total_visits (s : Stats) (r : Report)
    (h : r.reportType ≠ "TotalVisits") :
    (processReport s r).total_visits = s.total_visits := by
  simp only [processReport]; split_ifs <;> simp_all

theorem processReport_monthly_visits (s : Stats) (r : Report)
    (h : r.reportType ≠ "TotalVisitsPerMonth") :
    (processReport s r).monthly_visits = s.monthly_visits := by
  simp only [processReport]; split_ifs <;> simp_all

theorem processReport_top_countries (s : Stats) (r : Report)
    (h : r.reportType ≠ "TopCountries") :
    (processReport s r).top_countries = s.top_countries := by
  simp only [processReport]; split_ifs <;> simp_all

theorem foldl_total_visits_invariant (reports : List Report) (s : Stats)
    (h : ∀ r ∈ reports, r.reportType ≠ "TotalVisits") :
    (reports.foldl processReport s).total_visits = s.total_visits := by
  induction reports generalizing s with
  | nil => rfl
  | cons r t ih =>
    rw [List.foldl_cons, ih _ (fun q hq => h q (by simp [hq])),
      processReport_total_visits _ _ (h r (by simp))]

theorem foldl_monthly_visits_invariant (reports : List Report) (s : Stats)
    (h : ∀ r ∈ reports, r.reportType ≠ "TotalVisitsPerMonth") :
    (reports.foldl processReport s).monthly_visits = s.monthly_visits := by
  induction reports generalizing s with
  | nil => rfl
  | cons r t ih =>
    rw [List.foldl_cons, ih _ (fun q hq => h q (by simp [hq])),
      processReport_monthly_visits _ _ (h r (by simp))]

theorem foldl_top_countries_invariant (reports : List Report) (s : Stats)
    (h : ∀ r ∈ reports, r.reportType ≠ "TopCountries") :
    (reports.foldl processReport s).top_countries = s.top_countries := by
  induction reports generalizing s with
  | nil => rfl
  | cons r t ih =>
    rw [List.foldl_cons, ih _ (fun q hq => h q (by simp [hq])),
      processReport_top_countries _ _ (h r (by simp))]

theorem foldl_total_downloads_sum (reports : List Report) (s : Stats) :
    (reports.foldl processReport s).total_downloads
      = s.total_downloads
        + ((reports.filter (fun r => r.reportType = "TotalDownloads")).map
            (fun r => (r.points.map (fun p => p.views)).sum)).sum := by
  induction reports generalizing s with
  | nil => simp
  | cons r t ih =>
    rw [List.foldl_cons, ih]
    by_cases h : r.reportType = "TotalDownloads"
    · simp [List.filter_cons, h, processReport, foldl_add_views, add_assoc]
    · rw [processReport_total_downloads _ _ h]
      simp [List.filter_cons, h]

/-! ### Claims C4, C5, C6 -/

/-- C4: the Normalizer is total and defaulting: absent or malformed input
(the `none` case) yields the all-zero/empty record without raising; a
raw report missing a section leaves the corresponding field at its
zero/empty default, and a report containing only `TotalDownloads`
sections yields `total_visits = 0`, `monthly_visits = []`,
`top_countries = []`. -/
theorem normalizer_totality_defaults (uuid : String) (reports : List Report) :
    extract_statistics uuid none = initStats uuid
    ∧ ((∀ r ∈ reports, r.reportType ≠ "TotalVisits") →
        (extract_statistics uuid (some reports)).total_visits = 0)
    ∧ ((∀ r ∈ reports, r.reportType ≠ "TotalVisitsPerMonth") →
        (extract_statistics uuid (some reports)).monthly_visits = [])
    ∧ ((∀ r ∈ reports, r.reportType ≠ "TopCountries") →
        (extract_statistics uuid (some reports)).top_countries = [])
    ∧ ((∀ r ∈ reports, r.reportType = "TotalDownloads") →
        (extract_statistics uuid (some reports)).total_visits = 0
        ∧ (extract_statistics uuid (some reports)).monthly_visits = []
        ∧ (extract_statistics uuid (some reports)).top_countries = []) := by
  have he : extract_statistics uuid (some reports)
      = reports.foldl processReport (initStats uuid) := rfl
  refine ⟨rfl, ?_, ?_, ?_, fun h => ⟨?_, ?_, ?_⟩⟩
  · intro h; rw [he, foldl_total_visits_invariant _ _ h]; rfl
  · intro h; rw [he, foldl_monthly_visits_invariant _ _ h]; rfl
  · intro h; rw [he, foldl_top_countries_invariant _ _ h]; rfl
  · rw [he, foldl_total_visits_invariant _ _ (fun r hr => by rw [h r hr]; decide)]; rfl
  · rw [he, foldl_monthly_visits_invariant _ _ (fun r hr => by rw [h r hr]; decide)]; rfl
  · rw [he, foldl_top_countries_invariant _ _ (fun r hr => by rw [h r hr]; decide)]; rfl

/-- Witness for C4 on a concrete report holding only a `TotalDownloads`
section. -/
theorem normalizer_totality_defaults_witness :
    extract_statistics "u" none = initStats "u"
    ∧ (extract_statistics "u"
        (some [{ reportType := "TotalDownloads",
                 points := [⟨"", "", 3⟩] }])).total_visits = 0
    ∧ (extract_statistics "u"
        (some [{ reportType := "TotalDownloads",
                 points := [⟨"", "", 3⟩] }])).monthly_visits = []
    ∧ (extract_statistics "u"
        (some [{ reportType := "TotalDownloads",
                 points := [⟨"", "", 3⟩] }])).top_countries = [] := by
  have h := normalizer_totality_defaults "u"
    [{ reportType := "TotalDownloads", points := [⟨"", "", 3⟩] }]
  exact ⟨h.1, (h.2.2.2.2 (by decide)).1, (h.2.2.2.2 (by decide)).2.1,
    (h.2.2.2.2 (by decide)).2.2⟩

/-- C5: `TotalVisits` is handled by overwriting, so with several points
the last one wins, and with a single point `total_visits` is that
point's value (the single-point case is `ps = [p]`). -/
theorem total_visits_last_wins (uuid : String) (l₁ l₂ : List Report)
    (ps : List Point) (p : Point) (hp : ps.getLast? = some p)
    (h2 : ∀ r ∈ l₂, r.reportType ≠ "TotalVisits") :
    (extract_statistics uuid
        (some (l₁ ++ { reportType := "TotalVisits", points := ps } :: l₂))).total_visits
      = p.views := by
  have he : extract_statistics uuid
        (some (l₁ ++ { reportType := "TotalVisits", points := ps } :: l₂))
      = l₂.foldl processReport
          (processReport (l₁.foldl processReport (initStats uuid))
            { reportType := "TotalVisits", points := ps }) := by
    show (l₁ ++ { reportType := "TotalVisits", points := ps } :: l₂).foldl
        processReport (initStats uuid) = _
    rw [show l₁ ++ ({ reportType := "TotalVisits", points := ps } : Report) :: l₂
        = (l₁ ++ [{ reportType := "TotalVisits", points := ps }]) ++ l₂ by simp,
      List.foldl_append, List.foldl_append]
    rfl
  rw [he, foldl_total_visits_invariant _ _ h2]
  simp [processReport, foldl_last_views, hp]

/-- Witness for C5: two points 5 then 7, the last value 7 wins. -/
theorem total_visits_last_wins_witness :
    (extract_statistics "u"
        (some ([] ++ { reportType := "TotalVisits",
                       points := [⟨"", "", 5⟩, ⟨"", "", 7⟩] } :: []))).total_visits
      = 7 :=
  total_visits_last_wins "u" [] [] [⟨"", "", 5⟩, ⟨"", "", 7⟩] ⟨"", "", 7⟩
    (by decide) (by simp)

/-- C6: `total_downloads` is the sum of the `views` value over all
points of the `TotalDownloads` sections, and 0 when no such section is
present. -/
theorem total_downloads_summation (uuid : String) (reports : List Report) :
    (extract_statistics uuid (some reports)).total_downloads
      = ((reports.filter (fun r => r.reportType = "TotalDownloads")).map
          (fun r => (r.points.map (fun p => p.views)).sum)).sum
    ∧ ((∀ r ∈ reports, r.reportType ≠ "TotalDownloads") →
        (extract_statistics uuid (some reports)).total_downloads = 0) := by
  have he : extract_statistics uuid (some reports)
      = reports.foldl processReport (initStats uuid) := rfl
  constructor
  · rw [he, foldl_total_downloads_sum]; simp [initStats]
  · intro h
    rw [he, foldl_total_downloads_sum]
    have hf : reports.filter (fun r => r.reportType = "TotalDownloads") = [] :=
      List.filter_eq_nil_iff.mpr (by simpa using h)
    simp [hf, initStats]

/-- Witness for C6: two per-file download points 3 and 4 sum to 7, and a
report with no `TotalDownloads` section yields 0. -/
theorem total_downloads_summation_witness :
    (extract_statistics "u"
        (some [{ reportType := "TotalDownloads",
                 points := [⟨"f1", "", 3⟩, ⟨"f2", "", 4⟩] }])).total_downloads = 7
    ∧ (extract_statistics "u" (some ([] : List Report))).total_downloads = 0 := by
  constructor
  · rw [(total_downloads_summation "u"
      [{ reportType := "TotalDownloads",
         points := [⟨"f1", "", 3⟩, ⟨"f2", "", 4⟩] }]).1]
    decide
  · exact (total_downloads_summation "u" []).2 (by simp)

/-! ### Claim C8 -/

/-- All four numeric families of a `Stats` record are non-negative. -/
def NonNegStats (s : Stats) : Prop :=
  0 ≤ s.total_downloads ∧ 0 ≤ s.total_visits
  ∧ (∀ mv ∈ s.monthly_visits, 0 ≤ mv.2)
  ∧ (∀ c ∈ s.top_countries, 0 ≤ c.visits)

theorem processReport_nonneg (s : Stats) (r : Report) (hs : NonNegStats s)
    (hr : ∀ p ∈ r.points, 0 ≤ p.views) : NonNegStats (processReport s r) := by
  obtain ⟨h1, h2, h3, h4⟩ := hs
  simp only [processReport]
  split_ifs
  · refine ⟨?_, h2, h3, h4⟩
    rw [foldl_add_views]
    refine add_nonneg h1 (List.sum_nonneg ?_)
    intro x hx
    obtain ⟨p, hp, rfl⟩ := List.mem_map.mp hx
    exact hr p hp
  · refine ⟨h1, ?_, h3, h4⟩
    rw [foldl_last_views]
    cases hL : r.points.getLast? with
    | none => exact h2
    | some p => exact hr p (List.mem_of_mem_getLast? hL)
  · refine ⟨h1, h2, ?_, h4⟩
    intro mv hmv
    obtain ⟨p, hp, rfl⟩ := List.mem_map.mp hmv
    exact hr p hp
  · refine ⟨h1, h2, h3, ?_⟩
    intro c hc
    obtain ⟨p, hp, rfl⟩ := List.mem_map.mp hc
    exact hr p hp
  · exact ⟨h1, h2, h3, h4⟩

theorem foldl_nonneg (reports : List Report) (s : Stats) (hs : NonNegStats s)
    (h : ∀ r ∈ reports, ∀ p ∈ r.points, 0 ≤ p.views) :
    NonNegStats (reports.foldl processReport s) := by
  induction reports generalizing s with
  | nil => exact hs
  | cons r t ih =>
    rw [List.foldl_cons]
    exact ih _ (processReport_nonneg _ _ hs (h r (by simp)))
      (fun q hq => h q (by simp [hq]))

/-- C8 counterexample: the code validates nothing, so a raw report whose
`TotalDownloads` point carries `views = -1` produces a record with a
negative `total_downloads`, refuting the claim as stated over all raw
inputs. -/
theorem nonneg_invariant_cex :
    ¬ 0 ≤ (extract_statistics "u"
        (some [{ reportType := "TotalDownloads",
                 points := [⟨"", "", -1⟩] }])).total_downloads := by
  decide

/-- C8 amended: provided every `views` value of the raw report is
non-negative (which the upstream source guarantees for counts), every
record the Normalizer produces has non-negative `total_downloads`,
`total_visits`, and monthly/country visits; the absent-input record is
unconditionally non-negative. -/
theorem nonneg_invariant_amended (uuid : String) (reports : List Report)
    (h : ∀ r ∈ reports, ∀ p ∈ r.points, 0 ≤ p.views) :
    NonNegStats (extract_statistics uuid (some reports))
    ∧ NonNegStats (extract_statistics uuid none) := by
  have hinit : NonNegStats (initStats uuid) := by
    refine ⟨le_refl 0, le_refl 0, ?_, ?_⟩ <;> intro x hx <;> simp [initStats] at hx
  exact ⟨foldl_nonneg reports (initStats uuid) hinit h, hinit⟩

/-- Witness for C8 amended on a one-section report with `views = 4`. -/
theorem nonneg_invariant_amended_witness :
    0 ≤ (extract_statistics "u"
        (some [{ reportType := "TotalVisits",
                 points := [⟨"", "", 4⟩] }])).total_downloads
    ∧ 0 ≤ (extract_statistics "u"
        (some [{ reportType := "TotalVisits",
                 points := [⟨"", "", 4⟩] }])).total_visits :=
  ⟨(nonneg_invariant_amended "u"
      [Report.mk "TotalVisits" [Point.mk "" "" 4]] (by decide)).1.1,
   (nonneg_invariant_amended "u"
      [Report.mk "TotalVisits" [Point.mk "" "" 4]] (by decide)).1.2.1⟩

/-! ### Claims C2 and C10 -/

/-- C2: when every monthly visit value is zero the total is not positive,
so the `else` branch stores 0 for every month, whatever the
publication's `total_downloads`. -/
theorem redistribution_zero_case (total_downloads : Int) (views : List ℚ)
    (h : ∀ v ∈ views, v = 0) :
    redistribute total_downloads views = List.replicate views.length 0 := by
  have hs : views.sum = 0 := List.sum_eq_zero h
  simp [redistribute, hs, List.map_const']

/-- Witness for C2: `total_downloads = 50`, visits `[0, 0, 0]` give
downloads `[0, 0, 0]`. -/
theorem redistribution_zero_case_witness :
    redistribute 50 [0, 0, 0] = [0, 0, 0] := by
  simpa using redistribution_zero_case 50 [0, 0, 0] (by norm_num)

theorem dmg_concat_eq (l : List (String × Int)) (title : String) (d : Int)
    (tail : List (String × Int)) (htail : ∀ e ∈ tail, e.1 ≠ title) :
    downloadsMapGet (l ++ (title, d) :: tail) title = d := by
  have hft : tail.filter (fun e => e.1 = title) = [] :=
    List.filter_eq_nil_iff.mpr (by simpa using htail)
  unfold downloadsMapGet
  rw [List.filter_append, List.filter_cons]
  simp [hft, List.getLast?_concat]

/-- C10: the redistribution joins pivot rows to totals by title: a title
absent from the publication-statistics table gets total 0 and an
all-zero downloads row, and with duplicate titles the last mapped total
wins (so two publications sharing a title are given that same total). -/
theorem join_by_title (pubStats : List (String × Int)) (title : String)
    (views : List ℚ) :
    ((∀ e ∈ pubStats, e.1 ≠ title) →
      downloadsMapGet pubStats title = 0
      ∧ rowDownloads pubStats title views = views.map (fun _ => 0))
    ∧ ∀ l₁ l₂ l₃ : List (String × Int), ∀ d₁ d₂ : Int,
        (∀ e ∈ l₃, e.1 ≠ title) →
        downloadsMapGet (l₁ ++ ((title, d₁) :: (l₂ ++ (title, d₂) :: l₃)))
          title = d₂ := by
  constructor
  · intro h
    have hf : pubStats.filter (fun e => e.1 = title) = [] :=
      List.filter_eq_nil_iff.mpr (by simpa using h)
    have hdm : downloadsMapGet pubStats title = 0 := by
      simp [downloadsMapGet, hf]
    refine ⟨hdm, ?_⟩
    rw [rowDownloads, hdm]
    simp only [redistribute]
    split_ifs with hV
    · refine List.map_congr_left ?_
      intro v _
      simp [truncInt]
    · rfl
  · intro l₁ l₂ l₃ d₁ d₂ h3
    rw [show l₁ ++ ((title, d₁) :: (l₂ ++ (title, d₂) :: l₃))
        = (l₁ ++ (title, d₁) :: l₂) ++ (title, d₂) :: l₃ by simp]
    exact dmg_concat_eq _ _ _ _ h3

/-- Witness for C10: title `"b"` missing from `[("a", 5)]` yields total 0
and a zero row; among duplicates of `"b"` the last total 8 wins. -/
theorem join_by_title_witness :
    downloadsMapGet [("a", 5)] "b" = 0
    ∧ rowDownloads [("a", 5)] "b" [1, 2] = [0, 0]
    ∧ downloadsMapGet ([("a", 5)] ++ (("b", 3) :: ([] ++ ("b", 8) :: [("c", 9)])))
        "b" = 8 := by
  have h := join_by_title [("a", 5)] "b" [1, 2]
  have ha := h.1 (by decide)
  exact ⟨ha.1, by rw [ha.2]; rfl, h.2 [("a", 5)] [] [("c", 9)] 3 8 (by decide)⟩

/-! ### Claim C7 -/

theorem filter_eq_singleton (rows : List (String × Int)) (m : String) (v : Int)
    (hmem : (m, v) ∈ rows) (hcount : (rows.map Prod.fst).count m = 1) :
    rows.filter (fun r => r.1 = m) = [(m, v)] := by
  induction rows with
  | nil => cases hmem
  | cons e t ih =>
    by_cases he : e.1 = m
    · have hc : (t.map Prod.fst).count m = 0 := by
        have h1 := hcount
        simp [List.count_cons, he] at h1
        omega
      have hnot : m ∉ t.map Prod.fst := List.count_eq_zero.mp hc
      have hft : t.filter (fun r => r.1 = m) = [] := by
        refine List.filter_eq_nil_iff.mpr ?_
        intro a ha
        simp only [decide_eq_true_eq]
        intro ham
        exact hnot (List.mem_map.mpr ⟨a, ha, ham⟩)
      have hhead : e = (m, v) := by
        rcases List.mem_cons.mp hmem with h | h
        · exact h.symm
        · exact absurd (List.mem_map.mpr ⟨(m, v), h, rfl⟩) hnot
      subst hhead
      simp [List.filter_cons, hft]
    · have hmem2 : (m, v) ∈ t := by
        rcases List.mem_cons.mp hmem with h | h
        · exact absurd (by rw [← h]) he
        · exact h
      have hc2 : (t.map Prod.fst).count m = 1 := by
        simpa [List.count_cons, he] using hcount
      simpa [List.filter_cons, he] using ih hmem2 hc2

/-- C7: along any canonical month axis, a month absent from a
publication's source rows carries 0 in the aligned view series (the
pivot's `fill_value`), and any month reported exactly once carries its
reported value at that month's position on the axis. -/
theorem month_axis_zero_fill (axis : List String) (rows : List (String × Int))
    (i : Nat) (hi : i < axis.length) :
    (axis.get ⟨i, hi⟩ ∉ rows.map Prod.fst →
      (alignedSeries axis rows).get ⟨i, by simpa [alignedSeries] using hi⟩ = 0)
    ∧ ∀ v : Int, (axis.get ⟨i, hi⟩, v) ∈ rows →
        (rows.map Prod.fst).count (axis.get ⟨i, hi⟩) = 1 →
        (alignedSeries axis rows).get ⟨i, by simpa [alignedSeries] using hi⟩
          = (v : ℚ) := by
  have hget : (alignedSeries axis rows).get ⟨i, by simpa [alignedSeries] using hi⟩
      = alignedValue rows (axis.get ⟨i, hi⟩) := by
    simp [alignedSeries, List.get_eq_getElem, List.getElem_map]
  constructor
  · intro hnot
    have hf : rows.filter (fun r => r.1 = axis.get ⟨i, hi⟩) = [] := by
      refine List.filter_eq_nil_iff.mpr ?_
      intro a ha
      simp only [decide_eq_true_eq]
      intro ham
      exact hnot (List.mem_map.mpr ⟨a, ha, ham⟩)
    rw [hget]
    simp only [alignedValue, hf]
    simp
  · intro v hmem hcount
    rw [hget]
    simp only [alignedValue, filter_eq_singleton rows _ v hmem hcount]
    simp

/-- Witness for C7: axis 2025-03 … 2025-09, source data only for the
parsed labels "May 2025" (7 visits) and "June 2025" (3 visits): the
value 7 sits at the 2025-05 position and the 2025-03 position is 0. -/
theorem month_axis_zero_fill_witness :
    (alignedSeries
        ["2025-03", "2025-04", "2025-05", "2025-06", "2025-07", "2025-08", "2025-09"]
        [((parseMonthYear "May 2025").getD "", 7),
         ((parseMonthYear "June 2025").getD "", 3)]).get ⟨2, by decide⟩
      = ((7 : Int) : ℚ)
    ∧ (alignedSeries
        ["2025-03", "2025-04", "2025-05", "2025-06", "2025-07", "2025-08", "2025-09"]
        [((parseMonthYear "May 2025").getD "", 7),
         ((parseMonthYear "June 2025").getD "", 3)]).get ⟨0, by decide⟩ = 0 :=
  ⟨(month_axis_zero_fill
      ["2025-03", "2025-04", "2025-05", "2025-06", "2025-07", "2025-08", "2025-09"]
      [((parseMonthYear "May 2025").getD "", 7),
       ((parseMonthYear "June 2025").getD "", 3)] 2 (by decide)).2 7
      (by decide) (by decide),
   (month_axis_zero_fill
      ["2025-03", "2025-04", "2025-05", "2025-06", "2025-07", "2025-08", "2025-09"]
      [((parseMonthYear "May 2025").getD "", 7),
       ((parseMonthYear "June 2025").getD "", 3)] 0 (by decide)).1 (by decide)⟩

/-! ### Arithmetic helpers for the redistribution claims -/

theorem sum_map_mul_const (l : List ℚ) (c : ℚ) :
    (l.map (fun v => v * c)).sum = l.sum * c := by
  induction l with
  | nil => simp
  | cons q t ih => simp [ih, add_mul]

theorem sum_views_scaled (views : List ℚ) (D : ℚ) (hV : views.sum ≠ 0) :
    (views.map (fun v => v / views.sum * D)).sum = D := by
  have h1 : (fun v => v / views.sum * D) = fun v => v * (D / views.sum) := by
    funext v; ring
  rw [h1, sum_map_mul_const]
  field_simp

theorem sum_map_floor_le (l : List ℚ) :
    (l.map (fun q => (⌊q⌋ : ℚ))).sum ≤ l.sum := by
  induction l with
  | nil => simp
  | cons q t ih =>
    simp only [List.map_cons, List.sum_cons]
    exact add_le_add (Int.floor_le q) ih

theorem sum_sub_length_le_sum_map_floor (l : List ℚ) :
    l.sum - l.length ≤ (l.map (fun q => (⌊q⌋ : ℚ))).sum := by
  induction l with
  | nil => simp
  | cons q t ih =>
    simp only [List.map_cons, List.sum_cons, List.length_cons]
    have h1 : q - 1 ≤ (⌊q⌋ : ℚ) := le_of_lt (Int.sub_one_lt_floor q)
    push_cast
    push_cast at ih
    linarith

theorem sum_sub_length_lt_sum_map_floor (l : List ℚ) (h : l ≠ []) :
    l.sum - l.length < (l.map (fun q => (⌊q⌋ : ℚ))).sum := by
  cases l with
  | nil => exact absurd rfl h
  | cons q t =>
    simp only [List.map_cons, List.sum_cons, List.length_cons]
    have h1 : q - 1 < (⌊q⌋ : ℚ) := Int.sub_one_lt_floor q
    have h2 := sum_sub_length_le_sum_map_floor t
    push_cast
    push_cast at h2
    linarith

theorem redistribute_eq_floor (D : Int) (views : List ℚ)
    (hv : ∀ v ∈ views, 0 ≤ v) (hV : 0 < views.sum) (hD : 0 ≤ D) :
    redistribute D views = views.map (fun v => ⌊v / views.sum * (D : ℚ)⌋) := by
  simp only [redistribute, if_pos hV]
  refine List.map_congr_left ?_
  intro v hvm
  have h0 : 0 ≤ v / views.sum * (D : ℚ) :=
    mul_nonneg (div_nonneg (hv v hvm) hV.le) (by exact_mod_cast hD)
  simp [truncInt, h0]

theorem redistribute_sum_cast (D : Int) (views : List ℚ)
    (hv : ∀ v ∈ views, 0 ≤ v) (hV : 0 < views.sum) (hD : 0 ≤ D) :
    (((redistribute D views).sum : Int) : ℚ)
      = ((views.map (fun v => v / views.sum * (D : ℚ))).map
          (fun q => (⌊q⌋ : ℚ))).sum := by
  rw [redistribute_eq_floor D views hv hV hD, Int.cast_list_sum,
    List.map_map, List.map_map]
  rfl

theorem redistribute_sum_bounds (D : Int) (views : List ℚ)
    (hv : ∀ v ∈ views, 0 ≤ v) (hV : 0 < views.sum) (hD : 0 ≤ D) :
    (redistribute D views).sum ≤ D
    ∧ D - (views.length : Int) < (redistribute D views).sum := by
  have hne : views ≠ [] := by
    intro hc; rw [hc] at hV; simp at hV
  have hsum : (views.map (fun v => v / views.sum * (D : ℚ))).sum = (D : ℚ) :=
    sum_views_scaled views (D : ℚ) (ne_of_gt hV)
  have hcast := redistribute_sum_cast D views hv hV hD
  constructor
  · have hub := sum_map_floor_le (views.map (fun v => v / views.sum * (D : ℚ)))
    rw [hsum] at hub
    rw [← hcast] at hub
    exact_mod_cast hub
  · have hne2 : views.map (fun v => v / views.sum * (D : ℚ)) ≠ [] := by
      simpa using hne
    have hlb := sum_sub_length_lt_sum_map_floor
      (views.map (fun v => v / views.sum * (D : ℚ))) hne2
    rw [hsum, List.length_map, ← hcast] at hlb
    exact_mod_cast hlb

/-! ### Claims C1 and C9 -/

/-- C1 counterexample: `total_downloads = 2` with visits `[1, 1, 1]`
stores `[0, 0, 0]` (each `(1/3)*2` truncates to 0), so the stored
monthly downloads sum to 0, not 2 — far beyond any floating-point
rounding tolerance. -/
theorem redistribution_conservation_cex :
    (redistribute 2 [1, 1, 1]).sum = 0
    ∧ ¬ |(((redistribute 2 [1, 1, 1]).sum : Int) : ℚ) - 2| ≤ 1 / 100 := by
  have h : redistribute 2 [1, 1, 1] = [0, 0, 0] := by
    norm_num [redistribute, truncInt]
  rw [h]
  norm_num

/-- C1 amended: for non-negative visits with positive sum and a
non-negative total, the pre-truncation rational shares sum to exactly
`total_downloads`; the stored integer values, truncated by
`astype(int)`, sum to at most `total_downloads` and fall short of it by
less than one per month. -/
theorem redistribution_conservation_amended (D : Int) (views : List ℚ)
    (hv : ∀ v ∈ views, 0 ≤ v) (hV : 0 < views.sum) (hD : 0 ≤ D) :
    (views.map (fun v => v / views.sum * (D : ℚ))).sum = (D : ℚ)
    ∧ (redistribute D views).sum ≤ D
    ∧ D - (views.length : Int) < (redistribute D views).sum :=
  ⟨sum_views_scaled views (D : ℚ) (ne_of_gt hV),
   (redistribute_sum_bounds D views hv hV hD).1,
   (redistribute_sum_bounds D views hv hV hD).2⟩

/-- Witness for C1 amended: `total_downloads = 100`, visits
`[10, 0, 30]`. -/
theorem redistribution_conservation_amended_witness :
    (([(10 : ℚ), 0, 30]).map
        (fun v => v / ([(10 : ℚ), 0, 30]).sum * ((100 : Int) : ℚ))).sum
      = ((100 : Int) : ℚ)
    ∧ (redistribute 100 [10, 0, 30]).sum ≤ 100
    ∧ (100 : Int) - (([(10 : ℚ), 0, 30]).length : Int)
        < (redistribute 100 [10, 0, 30]).sum :=
  redistribution_conservation_amended 100 [10, 0, 30]
    (by norm_num) (by norm_num) (by norm_num)

/-- C9: with positive total views and non-negative data, each stored
monthly download is the floor of `(v_i / V) * total_downloads` (the
truncation of a non-negative value), every stored value is a
non-negative integer, and the stored sum is at most `total_downloads`,
short of it by less than one per month. -/
theorem redistribution_truncation (D : Int) (views : List ℚ)
    (hv : ∀ v ∈ views, 0 ≤ v) (hV : 0 < views.sum) (hD : 0 ≤ D) :
    redistribute D views = views.map (fun v => ⌊v / views.sum * (D : ℚ)⌋)
    ∧ (∀ d ∈ redistribute D views, 0 ≤ d)
    ∧ (redistribute D views).sum ≤ D
    ∧ D - (views.length : Int) < (redistribute D views).sum := by
  refine ⟨redistribute_eq_floor D views hv hV hD, ?_,
    (redistribute_sum_bounds D views hv hV hD).1,
    (redistribute_sum_bounds D views hv hV hD).2⟩
  intro d hd
  rw [redistribute_eq_floor D views hv hV hD] at hd
  obtain ⟨v, hvm, rfl⟩ := List.mem_map.mp hd
  exact Int.floor_nonneg.mpr
    (mul_nonneg (div_nonneg (hv v hvm) hV.le) (by exact_mod_cast hD))

/-- Witness for C9: `total_downloads = 7`, visits `[1, 1, 1]` store
`[2, 2, 2]`: floors of 7/3, summing to 6 with `7 - 3 < 6 ≤ 7`. -/
theorem redistribution_truncation_witness :
    redistribute 7 [1, 1, 1]
      = ([(1 : ℚ), 1, 1]).map
          (fun v => ⌊v / ([(1 : ℚ), 1, 1]).sum * ((7 : Int) : ℚ)⌋)
    ∧ redistribute 7 [1, 1, 1] = [2, 2, 2]
    ∧ (redistribute 7 [1, 1, 1]).sum ≤ 7
    ∧ (7 : Int) - (([(1 : ℚ), 1, 1]).length : Int)
        < (redistribute 7 [1, 1, 1]).sum := by
  have h := redistribution_truncation 7 [1, 1, 1]
    (by norm_num) (by norm_num) (by norm_num)
  refine ⟨h.1, ?_, h.2.2.1, h.2.2.2⟩
  norm_num [redistribute, truncInt]

/-! ### Claim C3 -/

theorem round2_eq_of_bounds (q : ℚ) (n : Int)
    (h1 : (n : ℚ) ≤ q * 100 + 1 / 2) (h2 : q * 100 + 1 / 2 < n + 1) :
    round2 q = (n : ℚ) / 100 := by
  rw [round2, round_eq, Int.floor_eq_iff.mpr ⟨h1, h2⟩]

theorem abs_round2_sub (q : ℚ) : |round2 q - q| ≤ 1 / 200 := by
  have h := abs_sub_round (q * 100)
  have h2 : |(round (q * 100) : ℚ) - q * 100| ≤ 1 / 2 := by
    rw [abs_sub_comm]; exact h
  have h3 : round2 q - q = ((round (q * 100) : ℚ) - q * 100) / 100 := by
    rw [round2]; ring
  rw [h3, abs_div, abs_of_pos (by norm_num : (0 : ℚ) < 100)]
  linarith

theorem sum_map_round2_close (l : List ℚ) :
    |(l.map round2).sum - l.sum| ≤ (l.length : ℚ) / 200 := by
  induction l with
  | nil => simp
  | cons q t ih =>
    simp only [List.map_cons, List.sum_cons, List.length_cons]
    push_cast
    have h1 := abs_round2_sub q
    calc |round2 q + (t.map round2).sum - (q + t.sum)|
        = |(round2 q - q) + ((t.map round2).sum - t.sum)| := by ring_nf
      _ ≤ |round2 q - q| + |(t.map round2).sum - t.sum| := abs_add _ _
      _ ≤ 1 / 200 + (t.length : ℚ) / 200 := add_le_add h1 ih
      _ = ((t.length : ℚ) + 1) / 200 := by ring

theorem countryEntries_map_percentage (ps : List Point)
    (hT : 0 < (ps.map (fun p => p.views)).sum) :
    (countryEntries ps).map (fun c => c.percentage)
      = ps.map (fun p => round2
          ((p.views : ℚ) / (((ps.map (fun p => p.views)).sum : Int) : ℚ) * 100)) := by
  simp only [countryEntries, List.map_map]
  refine List.map_congr_left ?_
  intro p _
  simp [Function.comp, if_pos hT]

theorem percentages_q_sum (ps : List Point)
    (hT : 0 < (ps.map (fun p => p.views)).sum) :
    (ps.map (fun p =>
        (p.views : ℚ) / (((ps.map (fun p => p.views)).sum : Int) : ℚ) * 100)).sum
      = 100 := by
  have hq : (ps.map (fun p => (p.views : ℚ))).sum
      = (((ps.map (fun p => p.views)).sum : Int) : ℚ) := by
    rw [Int.cast_list_sum, List.map_map]; rfl
  have hrw : ps.map (fun p =>
        (p.views : ℚ) / (((ps.map (fun p => p.views)).sum : Int) : ℚ) * 100)
      = (ps.map (fun p => (p.views : ℚ))).map
          (fun v => v / (ps.map (fun p => (p.views : ℚ))).sum * 100) := by
    rw [List.map_map]
    refine List.map_congr_left ?_
    intro p _
    simp [Function.comp, hq]
  rw [hrw]
  exact sum_views_scaled _ 100 (by rw [hq]; exact_mod_cast ne_of_gt hT)

/-- C3 counterexample: a `TopCountries` section of 201 points with one
visit each gives every entry the percentage `round(100/201, 2) = 0.5`,
so the percentages sum to 100.5, outside the claimed ±0.1 tolerance. -/
theorem country_percentage_tolerance_cex :
    ¬ |((extract_statistics "u"
        (some [{ reportType := "TopCountries",
                 points := List.replicate 201 ⟨"CH", "Switzerland", 1⟩ }])).top_countries.map
          (fun c => c.percentage)).sum - 100| ≤ 1 / 10 := by
  have h1 : (extract_statistics "u"
      (some [{ reportType := "TopCountries",
               points := List.replicate 201 ⟨"CH", "Switzerland", 1⟩ }])).top_countries
      = countryEntries (List.replicate 201 ⟨"CH", "Switzerland", 1⟩) := rfl
  have htot : ((List.replicate 201 (Point.mk "CH" "Switzerland" 1)).map
      (fun p => p.views)).sum = (201 : Int) := by
    rw [List.map_replicate, List.sum_replicate]
    norm_num
  have h2 : countryEntries (List.replicate 201 ⟨"CH", "Switzerland", 1⟩)
      = List.replicate 201
          ⟨"CH", "Switzerland", 1,
            round2 (((1 : Int) : ℚ) / (((201 : Int)) : ℚ) * 100)⟩ := by
    simp only [countryEntries, htot, List.map_replicate]
    norm_num
  have h3 : round2 (((1 : Int) : ℚ) / (((201 : Int)) : ℚ) * 100) = (50 : ℚ) / 100 := by
    apply round2_eq_of_bounds
    · push_cast; norm_num
    · push_cast; norm_num
  rw [h1, h2, h3, List.map_replicate, List.sum_replicate]
  push_cast
  norm_num [nsmul_eq_mul]
  rw [abs_of_pos] <;> norm_num

/-- C3 amended: the Normalizer's country percentages follow the claimed
formula (`visits / section total * 100` rounded to 2 decimals when the
total is positive, 0 when the total is 0), and for a positive total the
percentages sum to 100 within ±0.005 per country entry — the fixed ±0.1
tolerance only holds for sections of at most 20 countries and fails in
general. -/
theorem country_percentage_amended (uuid : String) (l₁ l₂ : List Report)
    (ps : List Point)
    (h2 : ∀ r ∈ l₂, r.reportType ≠ "TopCountries")
    (hT : 0 < (ps.map (fun p => p.views)).sum) :
    (extract_statistics uuid
        (some (l₁ ++ { reportType := "TopCountries", points := ps } :: l₂))).top_countries
      = countryEntries ps
    ∧ (countryEntries ps).map (fun c => c.percentage)
        = ps.map (fun p => round2
            ((p.views : ℚ) / (((ps.map (fun p => p.views)).sum : Int) : ℚ) * 100))
    ∧ |((countryEntries ps).map (fun c => c.percentage)).sum - 100|
        ≤ (ps.length : ℚ) / 200
    ∧ (∀ qs : List Point, (qs.map (fun p => p.views)).sum = 0 →
        ∀ c ∈ countryEntries qs, c.percentage = 0) := by
  refine ⟨?_, countryEntries_map_percentage ps hT, ?_, ?_⟩
  · have he : extract_statistics uuid
        (some (l₁ ++ { reportType := "TopCountries", points := ps } :: l₂))
        = l₂.foldl processReport
            (processReport (l₁.foldl processReport (initStats uuid))
              { reportType := "TopCountries", points := ps }) := by
      show (l₁ ++ { reportType := "TopCountries", points := ps } :: l₂).foldl
          processReport (initStats uuid) = _
      rw [show l₁ ++ ({ reportType := "TopCountries", points := ps } : Report) :: l₂
          = (l₁ ++ [{ reportType := "TopCountries", points := ps }]) ++ l₂ by simp,
        List.foldl_append, List.foldl_append]
      rfl
    rw [he, foldl_top_countries_invariant _ _ h2]
    simp [processReport]
  · have hmm : ps.map (fun p => round2
          ((p.views : ℚ) / (((ps.map (fun p => p.views)).sum : Int) : ℚ) * 100))
        = (ps.map (fun p =>
            (p.views : ℚ) / (((ps.map (fun p => p.views)).sum : Int) : ℚ) * 100)).map
            round2 := by
      rw [List.map_map]; rfl
    have hcl := sum_map_round2_close (ps.map (fun p =>
        (p.views : ℚ) / (((ps.map (fun p => p.views)).sum : Int) : ℚ) * 100))
    rw [percentages_q_sum ps hT, List.length_map] at hcl
    rw [countryEntries_map_percentage ps hT, hmm]
    exact hcl
  · intro qs hz c hc
    simp only [countryEntries] at hc
    obtain ⟨p, hp, rfl⟩ := List.mem_map.mp hc
    simp [hz, round2]

/-- Witness for C3 amended: section `[(CH, Switzerland, 80),
(US, USA, 20)]` gives percentages `[80, 20]`, summing to 100 within the
bound. -/
theorem country_percentage_amended_witness :
    (extract_statistics "u"
        (some ([] ++ { reportType := "TopCountries",
                       points := [⟨"CH", "Switzerland", 80⟩,
                                  ⟨"US", "USA", 20⟩] } :: []))).top_countries
      = countryEntries [⟨"CH", "Switzerland", 80⟩, ⟨"US", "USA", 20⟩]
    ∧ |((countryEntries [⟨"CH", "Switzerland", 80⟩,
          ⟨"US", "USA", 20⟩]).map (fun c => c.percentage)).sum - 100|
        ≤ (([Point.mk "CH" "Switzerland" 80,
             Point.mk "US" "USA" 20].length : ℕ) : ℚ) / 200
    ∧ (countryEntries [⟨"CH", "Switzerland", 80⟩, ⟨"US", "USA", 20⟩]).map
        (fun c => c.percentage) = [80, 20] := by
  have h := country_percentage_amended "u" [] []
    [⟨"CH", "Switzerland", 80⟩, ⟨"US", "USA", 20⟩] (by simp) (by decide)
  refine ⟨h.1, h.2.2.1, ?_⟩
  norm_num [countryEntries, round2, round_eq]
